import Mathlib

/-
Shallow embedding of TFBinPacker (src/binpacker.h, src/binpacker.cpp).

Coordinates are C `unsigned int`; we model them as `Nat`.  The C code's
subtractions are guarded so that they never wrap on the states the program
actually manipulates (regions with `left ≤ right ∧ top ≤ bottom`); where the
source writes `r.right - area.width + 1` under a guard that ensures
`area.width ≤ r.right + 1`, we write the equal value `r.right + 1 - area.width`
so that `Nat` truncated subtraction coincides with the unsigned result.
Scores are C `int`; we model them as `Int` (the spec, §6, disclaims overflow:
callers must keep products in range).
-/

namespace BinPacker

/-- Axis-aligned rectangle with inclusive coordinates, as in binpacker.h. -/
structure Rect where
  left : Nat
  top : Nat
  right : Nat
  bottom : Nat
deriving DecidableEq

/-- Width/height pair, as in binpacker.h. -/
structure Area where
  width : Nat
  height : Nat
deriving DecidableEq

/-- Rect::IsValid from binpacker.cpp: `left <= right && top <= bottom`. -/
def Rect.IsValid (r : Rect) : Bool :=
  decide (r.left ≤ r.right) && decide (r.top ≤ r.bottom)

/-- Bin state: `Area dimensions = {0, 0}; std::vector<Rect> emptyRegions;`. -/
structure Bin where
  dimensions : Area
  emptyRegions : List Rect
deriving DecidableEq

/-- A default-constructed Bin: dimensions {0,0}, no empty regions. -/
def Bin.fresh : Bin := ⟨⟨0, 0⟩, []⟩

/-- Bin::GetDimensions. -/
def Bin.GetDimensions (b : Bin) : Area := b.dimensions

/-- Bin::GetEmptyRegions. -/
def Bin.GetEmptyRegions (b : Bin) : List Rect := b.emptyRegions

/-- The `score` local of GetClipScore (binpacker.cpp lines 31-37): base 2 plus
the four edge terms minus the two alignment terms. -/
def clipScoreFactor (region clip : Rect) : Int :=
  2 + (if region.left < clip.left ∧ clip.left ≤ region.right then 1 else 0)
    + (if region.top < clip.top ∧ clip.top ≤ region.bottom then 1 else 0)
    + (if region.right < clip.right ∧ clip.right ≤ region.left then 1 else 0)
    + (if region.bottom < clip.bottom ∧ clip.bottom ≤ region.top then 1 else 0)
    - (if clip.bottom = region.bottom ∧ clip.top = region.top then 1 else 0)
    - (if clip.left = region.left ∧ clip.right = region.right then 1 else 0)

/-- The `intersection` local of GetClipScore (binpacker.cpp lines 39-44). -/
def intersectionRect (region clip : Rect) : Rect :=
  ⟨max region.left clip.left, max region.top clip.top,
   min region.right clip.right, min region.bottom clip.bottom⟩

/-- Inclusive-coordinate area `(right - left + 1) * (bottom - top + 1)`, the
expression used for `intersectionArea` and `boundsArea` in GetClipScore. -/
def rectArea (r : Rect) : Int :=
  ((r.right : Int) - r.left + 1) * ((r.bottom : Int) - r.top + 1)

/-- GetClipScore from binpacker.cpp lines 22-52. -/
def GetClipScore (region clip : Rect) : Int :=
  if region.right < clip.left ∨ clip.right < region.left
     ∨ region.bottom < clip.top ∨ clip.bottom < region.top then 0
  else clipScoreFactor region clip *
    (rectArea region - rectArea (intersectionRect region clip))

/-- The `accumulate` over `emptyRegions` summing GetClipScore against a fixed
clip (binpacker.cpp lines 72, 77, 82, 87). -/
def totalScore (regions : List Rect) (clip : Rect) : Int :=
  regions.foldl (fun s r => s + GetClipScore r clip) 0

/-- The fit test of line 67: `r.right - r.left >= area.width - 1 &&
r.bottom - r.top >= area.height - 1` (unsigned; identical to the `Nat`
truncated form for the valid regions the program manipulates). -/
def fits (r : Rect) (a : Area) : Bool :=
  decide (a.width - 1 ≤ r.right - r.left) && decide (a.height - 1 ≤ r.bottom - r.top)

/-- NW candidate clip (line 71). -/
def cornerNW (r : Rect) (a : Area) : Rect :=
  ⟨r.left, r.top, r.left + a.width - 1, r.top + a.height - 1⟩

/-- NE candidate clip (line 76); `r.right - area.width + 1` is written
`r.right + 1 - area.width`, equal under the fit guard. -/
def cornerNE (r : Rect) (a : Area) : Rect :=
  ⟨r.right + 1 - a.width, r.top, r.right, r.top + a.height - 1⟩

/-- SW candidate clip (line 81). -/
def cornerSW (r : Rect) (a : Area) : Rect :=
  ⟨r.left, r.bottom + 1 - a.height, r.left + a.width - 1, r.bottom⟩

/-- SE candidate clip (line 86). -/
def cornerSE (r : Rect) (a : Area) : Rect :=
  ⟨r.right + 1 - a.width, r.bottom + 1 - a.height, r.right, r.bottom⟩

/-- numeric_limits<int>::max(), the initial `minScore` (line 63). -/
def intMax : Int := 2147483647

/-- One corner test (lines 71-73 and analogues): score the clip against every
empty region, update `(minScore, bestRect)` when strictly better, and report
whether the `score == 0` break fires (it sits inside the update branch). -/
def tryCorner (regions : List Rect) (clip : Rect) (acc : Int × Rect) :
    (Int × Rect) × Bool :=
  let score := totalScore regions clip
  if score < acc.1 then ((score, clip), decide (score = 0)) else (acc, false)

/-- Sequential corner tests with the zero-score break: the body of lines
71-88, processing the candidate clips in order and stopping at a break. -/
def tryCorners (regions : List Rect) : List Rect → (Int × Rect) → (Int × Rect) × Bool
  | [], acc => (acc, false)
  | c :: rest, acc =>
    let p := tryCorner regions c acc
    if p.2 then p else tryCorners regions rest p.1

/-- One iteration of the region loop (lines 66-89): skip regions that cannot
fit the oriented area, otherwise test the four corners NW, NE, SW, SE in
order, stopping at a zero-score break. -/
def tryRegion (regions : List Rect) (a : Area) (r : Rect) (acc : Int × Rect) :
    (Int × Rect) × Bool :=
  if fits r a then
    tryCorners regions [cornerNW r a, cornerNE r a, cornerSW r a, cornerSE r a] acc
  else (acc, false)

/-- The region loop for one orientation; a zero-score break exits it early. -/
def scanRegions (regions : List Rect) (a : Area) :
    List Rect → (Int × Rect) → Int × Rect
  | [], acc => acc
  | r :: rest, acc =>
    let p := tryRegion regions a r acc
    if p.2 then p.1 else scanRegions regions a rest p.1

/-- The full search of lines 63-92: both orientations in order, the second
skipped when the first already reached `minScore == 0`. -/
def searchBest (regions : List Rect) (area : Area) : Int × Rect :=
  let acc1 := scanRegions regions area regions (intMax, ⟨1, 1, 0, 0⟩)
  if acc1.1 = 0 then acc1
  else scanRegions regions ⟨area.height, area.width⟩ regions acc1

/-- The removal test of line 99: `clip.left <= i->right && clip.top <=
i->bottom && clip.right >= i->left && clip.bottom >= i->top`. -/
def intersectsClip (clip r : Rect) : Bool :=
  decide (clip.left ≤ r.right) && decide (clip.top ≤ r.bottom) &&
  decide (r.left ≤ clip.right) && decide (r.top ≤ clip.bottom)

/-- The up-to-four remainder strips staged for a removed region
(binpacker.cpp lines 100-107), in source order: left, top, right, bottom. -/
def remainders (clip r : Rect) : List Rect :=
  (if r.left < clip.left ∧ clip.left ≤ r.right then
    [⟨r.left, r.top, clip.left - 1, r.bottom⟩] else []) ++
  (if r.top < clip.top ∧ clip.top ≤ r.bottom then
    [⟨r.left, r.top, r.right, clip.top - 1⟩] else []) ++
  (if clip.right < r.right ∧ r.left ≤ clip.right then
    [⟨clip.right + 1, r.top, r.right, r.bottom⟩] else []) ++
  (if clip.bottom < r.bottom ∧ r.top ≤ clip.bottom then
    [⟨r.left, clip.bottom + 1, r.right, r.bottom⟩] else [])

/-- The erase loop of lines 98-112: returns the surviving regions (in order)
and the staged remainder strips of every removed region (in order). -/
def removeClipped (clip : Rect) : List Rect → List Rect × List Rect
  | [] => ([], [])
  | r :: rest =>
    let p := removeClipped clip rest
    if intersectsClip clip r then (p.1, remainders clip r ++ p.2)
    else (r :: p.1, p.2)

/-- The merge test of lines 119-120: identical horizontal span and vertical
overlap, or identical vertical span and horizontal overlap. -/
def canMerge (n r : Rect) : Bool :=
  (decide (n.left = r.left) && decide (n.right = r.right) &&
   decide (n.top ≤ r.bottom) && decide (r.top ≤ n.bottom)) ||
  (decide (n.top = r.top) && decide (n.bottom = r.bottom) &&
   decide (n.left ≤ r.right) && decide (r.left ≤ n.right))

/-- The merged rectangle of lines 123-128. -/
def hull (r n : Rect) : Rect :=
  ⟨min r.left n.left, min r.top n.top, max r.right n.right, max r.bottom n.bottom⟩

/-- The sort proxy of the insertion comparator (line 133): `left * top`. -/
def sortKey (r : Rect) : Nat := r.left * r.top

/-- std::upper_bound's binary search (libstdc++): on range `[first, first +
count)` of `xs`, with comparator `sortKey v < sortKey element`.  The `fuel`
argument only drives structural recursion; `count` strictly decreases at every
step, so `fuel = count` never runs out. -/
def ubGo (v : Nat) (xs : List Rect) : Nat → Nat → Nat → Nat
  | 0, first, _ => first
  | fuel + 1, first, count =>
    if count = 0 then first
    else
      let step := count / 2
      if v < sortKey (xs.getD (first + step) ⟨0, 0, 0, 0⟩)
      then ubGo v xs fuel first step
      else ubGo v xs fuel (first + step + 1) (count - step - 1)

/-- Index computed by `upper_bound(cbegin, cend, newRegion, comparator)`. -/
def upperBoundIdx (v : Nat) (xs : List Rect) : Nat :=
  ubGo v xs xs.length 0 xs.length

/-- `emplace` at the upper_bound position (line 133). -/
def insertByKey (regions : List Rect) (n : Rect) : List Rect :=
  let i := upperBoundIdx (sortKey n) regions
  regions.take i ++ [n] ++ regions.drop i

/-- find_if of lines 118-121 combined with the erase of line 129: the first
region satisfying `canMerge n`, and the list with it removed. -/
def mergePartner (n : Rect) : List Rect → Option (Rect × List Rect)
  | [] => none
  | r :: rest =>
    if canMerge n r then some (r, rest)
    else match mergePartner n rest with
      | some (p, rest') => some (p, r :: rest')
      | none => none

/-- One iteration of the insertion loop (lines 115-134): merge with the first
compatible existing region if any, then insert at the upper_bound position. -/
def insertRegion (regions : List Rect) (n : Rect) : List Rect :=
  match mergePartner n regions with
  | some (p, rest) => insertByKey rest (hull p n)
  | none => insertByKey regions n

/-- The whole insertion loop over the staged remainder strips. -/
def insertAll (regions : List Rect) : List Rect → List Rect
  | [] => regions
  | n :: rest => insertAll (insertRegion regions n) rest

/-- Bin::TryPackArea (binpacker.cpp lines 54-141), as a pure state
transformer returning the placed Rect (or the invalid sentinel) and the new
Bin. -/
def Bin.TryPackArea (b : Bin) (area : Area) : Rect × Bin :=
  if 0 < area.width ∧ 0 < area.height ∧
     area.width ≤ b.dimensions.width ∧ area.height ≤ b.dimensions.height then
    let best := (searchBest b.emptyRegions area).2
    if best.IsValid then
      let p := removeClipped best b.emptyRegions
      (best, ⟨b.dimensions, insertAll p.1 p.2⟩)
    else (⟨1, 1, 0, 0⟩, b)
  else (⟨1, 1, 0, 0⟩, b)

/-- In-place update of the first element satisfying `p` (the find_if +
`i->right += ...` / `i->bottom += ...` pattern of lines 150-152 and 166-168). -/
def modifyFirst (p : Rect → Bool) (f : Rect → Rect) : List Rect → List Rect
  | [] => []
  | r :: rest => if p r then f r :: rest else r :: modifyFirst p f rest

/-- Bin::ExtendDimensions (binpacker.cpp lines 143-179). -/
def Bin.ExtendDimensions (b : Bin) (extension : Area) : Bin :=
  let dims := b.dimensions
  let rightEdge := if 0 < dims.width then dims.width - 1 else 0
  let bottomEdge := if 0 < dims.height then dims.height - 1 else 0
  let wPred := fun (r : Rect) =>
    decide (r.right = rightEdge) && decide (r.bottom - r.top = bottomEdge)
  let regions1 :=
    if 0 < extension.width ∧ 0 < dims.height then
      if b.emptyRegions.any wPred then
        modifyFirst wPred (fun r => { r with right := r.right + extension.width })
          b.emptyRegions
      else
        (b.emptyRegions.map (fun r =>
          if r.right = rightEdge then { r with right := r.right + extension.width } else r))
        ++ [⟨dims.width, 0, dims.width + extension.width - 1, bottomEdge⟩]
    else b.emptyRegions
  let width1 := dims.width + extension.width
  let rightEdge1 := rightEdge + extension.width
  let hPred := fun (r : Rect) =>
    decide (r.bottom = bottomEdge) && decide (r.right - r.left = rightEdge1)
  let regions2 :=
    if 0 < extension.height ∧ 0 < width1 then
      if regions1.any hPred then
        modifyFirst hPred (fun r => { r with bottom := r.bottom + extension.height })
          regions1
      else
        (regions1.map (fun r =>
          if r.bottom = bottomEdge then { r with bottom := r.bottom + extension.height } else r))
        ++ [⟨0, dims.height, rightEdge1, dims.height + extension.height - 1⟩]
    else regions1
  ⟨⟨width1, dims.height + extension.height⟩, regions2⟩

/-- Membership of an integer grid cell in a Rect (inclusive coordinates). -/
def cellIn (r : Rect) (x y : Nat) : Prop :=
  r.left ≤ x ∧ x ≤ r.right ∧ r.top ≤ y ∧ y ≤ r.bottom

instance (r : Rect) (x y : Nat) : Decidable (cellIn r x y) := by
  unfold cellIn; infer_instance

/-- Modelled from the spec (§4.2), for the refinement claim about the scorer:
score `0` when the clip does not intersect the region (no common cell,
expressed by empty clamped bounds), otherwise
`(base + edgeTerms − alignmentTerms) × (regionArea − intersectionArea)` with
the spec's exact (asymmetric) edge conditionals. -/
def specClipScore (region clip : Rect) : Int :=
  if min region.right clip.right < max region.left clip.left
     ∨ min region.bottom clip.bottom < max region.top clip.top then 0
  else
    (2 + (if region.left < clip.left ∧ clip.left ≤ region.right then 1 else 0)
       + (if region.top < clip.top ∧ clip.top ≤ region.bottom then 1 else 0)
       + (if region.right < clip.right ∧ clip.right ≤ region.left then 1 else 0)
       + (if region.bottom < clip.bottom ∧ clip.bottom ≤ region.top then 1 else 0)
       - (if clip.bottom = region.bottom ∧ clip.top = region.top then 1 else 0)
       - (if clip.left = region.left ∧ clip.right = region.right then 1 else 0))
    * (rectArea region - rectArea (intersectionRect region clip))

/-- Invariant carried through the free-region update of a successful pack:
the rectangle is valid and shares no cell with the placed clip. -/
def PackInv (clip r : Rect) : Prop :=
  r.IsValid = true ∧ ∀ x y, cellIn r x y → ¬ cellIn clip x y

end BinPacker

namespace BinPacker

/-- C3: the spec's Scenario A fails on the code. On a fresh Bin,
`ExtendDimensions({10,10})` does set the dimensions to `{10,10}`, but the
single free region it creates is `{0,0,10,9}` — eleven columns wide, one more
than the bin — because `rightEdge` is initialised to `0` when the old width is
`0` and then incremented by the full extension.  The spec's expected region
`{0,0,9,9}` is not produced. -/
theorem C3_extend_fresh_bug :
    (Bin.fresh.ExtendDimensions ⟨10, 10⟩).GetDimensions = ⟨10, 10⟩ ∧
    (Bin.fresh.ExtendDimensions ⟨10, 10⟩).GetEmptyRegions = [⟨0, 0, 10, 9⟩] ∧
    (Bin.fresh.ExtendDimensions ⟨10, 10⟩).GetEmptyRegions ≠ [⟨0, 0, 9, 9⟩] := by
  decide

/-- C4: containment of free regions in the bin's bounding rectangle fails on
the code.  After `ExtendDimensions({10,10})` on a fresh Bin, the free region
`{0,0,10,9}` has `right = 10`, which is not `< dimensions.width = 10`. -/
theorem C4_region_outside_bin :
    (⟨0, 0, 10, 9⟩ : Rect) ∈ (Bin.fresh.ExtendDimensions ⟨10, 10⟩).GetEmptyRegions ∧
    ¬ ((⟨0, 0, 10, 9⟩ : Rect).right
        < (Bin.fresh.ExtendDimensions ⟨10, 10⟩).GetDimensions.width) := by
  decide

/-- C2, counterexample: the area conservation fails on the simplest trace.
After `ExtendDimensions({10,10})` on a fresh Bin (no placements yet), the sum
of the free-region areas is `110` while `width × height = 100`. -/
theorem C2_counterexample :
    (((Bin.fresh.ExtendDimensions ⟨10, 10⟩).GetEmptyRegions.map rectArea).sum = 110) ∧
    ((Bin.fresh.ExtendDimensions ⟨10, 10⟩).GetDimensions.width *
      (Bin.fresh.ExtendDimensions ⟨10, 10⟩).GetDimensions.height = 100) := by
  decide

/-- C1, counterexample: free regions are not pairwise disjoint.  Growing a
fresh bin to 5×5 (width first, then height, which avoids the `rightEdge`
slip) and packing a 2×2 area leaves the two maximal remainder strips
`{2,0,4,4}` and `{0,2,4,4}`, which are distinct elements of
`GetEmptyRegions()` and share the cell `(2,2)`. -/
theorem C1_counterexample :
    ((((Bin.fresh.ExtendDimensions ⟨5, 0⟩).ExtendDimensions ⟨0, 5⟩).TryPackArea
        ⟨2, 2⟩).2.GetEmptyRegions = [⟨2, 0, 4, 4⟩, ⟨0, 2, 4, 4⟩]) ∧
    (⟨2, 0, 4, 4⟩ : Rect) ≠ ⟨0, 2, 4, 4⟩ ∧
    cellIn ⟨2, 0, 4, 4⟩ 2 2 ∧ cellIn ⟨0, 2, 4, 4⟩ 2 2 := by
  decide

/-- C5, counterexample: a request with positive width and height that exceeds
the bin's dimensions as given but fits after rotation fails, even though the
only free region admits the rotated clip: on a 5×1 bin whose free region is
`{0,0,4,0}` (5 wide, 1 tall), `TryPackArea({1,5})` returns the invalid
sentinel, because the initial guard compares only the given orientation
against the dimensions. -/
theorem C5_counterexample :
    (((Bin.fresh.ExtendDimensions ⟨5, 0⟩).ExtendDimensions ⟨0, 1⟩).GetDimensions
        = ⟨5, 1⟩) ∧
    (((Bin.fresh.ExtendDimensions ⟨5, 0⟩).ExtendDimensions ⟨0, 1⟩).GetEmptyRegions
        = [⟨0, 0, 4, 0⟩]) ∧
    ((((Bin.fresh.ExtendDimensions ⟨5, 0⟩).ExtendDimensions ⟨0, 1⟩).TryPackArea
        ⟨1, 5⟩).1.IsValid = false) ∧
    ((((Bin.fresh.ExtendDimensions ⟨5, 0⟩).ExtendDimensions ⟨0, 1⟩).TryPackArea
        ⟨1, 5⟩).2 = (Bin.fresh.ExtendDimensions ⟨5, 0⟩).ExtendDimensions ⟨0, 1⟩) ∧
    fits ⟨0, 0, 4, 0⟩ ⟨5, 1⟩ = true ∧ (0 < 1 ∧ 0 < 5 ∧ 5 ≤ 5 ∧ 1 ≤ 1) := by
  decide

/-- C8, counterexample: the remainder strips staged for a removed region are
not pairwise disjoint.  Packing 2×2 into the 5×5 bin whose free region is
`{0,0,4,4}` removes that region and stages the full-height strip `{2,0,4,4}`
and the full-width strip `{0,2,4,4}`, which share the cell `(3,3)`. -/
theorem C8_counterexample :
    ((((Bin.fresh.ExtendDimensions ⟨5, 0⟩).ExtendDimensions ⟨0, 5⟩).TryPackArea
        ⟨2, 2⟩).1 = ⟨0, 0, 1, 1⟩) ∧
    intersectsClip ⟨0, 0, 1, 1⟩ ⟨0, 0, 4, 4⟩ = true ∧
    remainders ⟨0, 0, 1, 1⟩ ⟨0, 0, 4, 4⟩ = [⟨2, 0, 4, 4⟩, ⟨0, 2, 4, 4⟩] ∧
    cellIn ⟨2, 0, 4, 4⟩ 3 3 ∧ cellIn ⟨0, 2, 4, 4⟩ 3 3 := by
  decide

/-- C10: for a valid region the two edge terms conditioned on `clip.right` and
`clip.bottom` vanish (their conditions require `region.right < region.left`,
resp. `region.bottom < region.top`), so the pre-area multiplier reduces to the
left/top/alignment terms and always lies between 0 and 4. -/
theorem C10_factor_bounds :
    ∀ region clip : Rect, region.left ≤ region.right → region.top ≤ region.bottom →
      clipScoreFactor region clip =
        2 + (if region.left < clip.left ∧ clip.left ≤ region.right then 1 else 0)
          + (if region.top < clip.top ∧ clip.top ≤ region.bottom then 1 else 0)
          - (if clip.bottom = region.bottom ∧ clip.top = region.top then 1 else 0)
          - (if clip.left = region.left ∧ clip.right = region.right then 1 else 0)
      ∧ 0 ≤ clipScoreFactor region clip ∧ clipScoreFactor region clip ≤ 4 := by
  intro region clip h1 h2
  unfold clipScoreFactor
  refine ⟨?_, ?_, ?_⟩ <;> split_ifs <;> omega

/-- Witness for C10 at a concrete valid region. -/
theorem C10_factor_bounds_witness :
    clipScoreFactor ⟨0, 0, 4, 4⟩ ⟨0, 0, 1, 1⟩ = 2 ∧
    0 ≤ clipScoreFactor ⟨0, 0, 4, 4⟩ ⟨0, 0, 1, 1⟩ ∧
    clipScoreFactor ⟨0, 0, 4, 4⟩ ⟨0, 0, 1, 1⟩ ≤ 4 := by
  have h := C10_factor_bounds ⟨0, 0, 4, 4⟩ ⟨0, 0, 1, 1⟩ (by decide) (by decide)
  exact ⟨by decide, h.2.1, h.2.2⟩

/-- C7: for valid rectangles, `GetClipScore` is exactly the spec's formula
(`specClipScore`): zero when clip and region share no cell, otherwise
`(2 + edge terms − alignment terms) × (regionArea − intersectionArea)`; and a
clip that exactly covers the whole region scores 0. -/
theorem C7_clipscore_formula :
    ∀ region clip : Rect, region.IsValid = true → clip.IsValid = true →
      (GetClipScore region clip = specClipScore region clip ∧
       ((∀ x y, ¬ (cellIn region x y ∧ cellIn clip x y)) →
         GetClipScore region clip = 0)) ∧
      GetClipScore region region = 0 := by
  intro region clip hr hc
  simp only [Rect.IsValid, Bool.and_eq_true, decide_eq_true_eq] at hr hc
  obtain ⟨hr1, hr2⟩ := hr
  obtain ⟨hc1, hc2⟩ := hc
  refine ⟨⟨?_, ?_⟩, ?_⟩
  · by_cases h1 : region.right < clip.left ∨ clip.right < region.left ∨
        region.bottom < clip.top ∨ clip.bottom < region.top
    · have h2 : min region.right clip.right < max region.left clip.left ∨
          min region.bottom clip.bottom < max region.top clip.top := by omega
      unfold GetClipScore specClipScore
      rw [if_pos h1, if_pos h2]
    · have h2 : ¬ (min region.right clip.right < max region.left clip.left ∨
          min region.bottom clip.bottom < max region.top clip.top) := by omega
      unfold GetClipScore specClipScore
      rw [if_neg h1, if_neg h2]
      rfl
  · intro hdisj
    by_cases h : region.right < clip.left ∨ clip.right < region.left ∨
        region.bottom < clip.top ∨ clip.bottom < region.top
    · unfold GetClipScore
      rw [if_pos h]
    · exfalso
      push_neg at h
      have hcr : cellIn region (max region.left clip.left) (max region.top clip.top) := by
        simp only [cellIn]
        omega
      have hcc : cellIn clip (max region.left clip.left) (max region.top clip.top) := by
        simp only [cellIn]
        omega
      exact hdisj _ _ ⟨hcr, hcc⟩
  · by_cases h : region.right < region.left ∨ region.right < region.left ∨
        region.bottom < region.top ∨ region.bottom < region.top
    · unfold GetClipScore
      rw [if_pos h]
    · unfold GetClipScore
      rw [if_neg h]
      have hi : intersectionRect region region = region := by
        simp [intersectionRect]
      rw [hi]
      ring

end BinPacker

namespace BinPacker

/-- Witness for C7 at concrete valid rectangles. -/
theorem C7_clipscore_formula_witness :
    GetClipScore ⟨0, 0, 4, 4⟩ ⟨0, 0, 1, 1⟩ = specClipScore ⟨0, 0, 4, 4⟩ ⟨0, 0, 1, 1⟩ ∧
    GetClipScore ⟨0, 0, 4, 4⟩ ⟨5, 5, 6, 6⟩ = 0 ∧
    GetClipScore ⟨0, 0, 4, 4⟩ ⟨0, 0, 4, 4⟩ = 0 := by
  have h1 := C7_clipscore_formula ⟨0, 0, 4, 4⟩ ⟨0, 0, 1, 1⟩ (by decide) (by decide)
  have h2 := C7_clipscore_formula ⟨0, 0, 4, 4⟩ ⟨5, 5, 6, 6⟩ (by decide) (by decide)
  refine ⟨h1.1.1, h2.1.2 ?_, h1.2⟩
  intro x y hxy
  simp only [cellIn] at hxy
  omega

lemma mem_ite_singleton {c : Prop} [Decidable c] {a s : Rect}
    (h : s ∈ (if c then [a] else [])) : c ∧ s = a := by
  split_ifs at h with hc
  · exact ⟨hc, List.mem_singleton.mp h⟩
  · exact absurd h (List.not_mem_nil s)

lemma mem_ite_singleton_self {c : Prop} [Decidable c] (hc : c) (a : Rect) :
    a ∈ (if c then [a] else []) := by
  rw [if_pos hc]
  exact List.mem_singleton_self a

/-- Every cell of a staged remainder strip lies in the removed region and
outside the clip. -/
lemma mem_remainders_cells {clip r s : Rect} (hs : s ∈ remainders clip r) :
    ∀ x y, cellIn s x y → cellIn r x y ∧ ¬ cellIn clip x y := by
  intro x y hc
  unfold remainders at hs
  simp only [List.mem_append] at hs
  rcases hs with ((h | h) | h) | h <;>
    (obtain ⟨hcond, rfl⟩ := mem_ite_singleton h
     simp only [cellIn] at hc ⊢
     omega)

/-- Staged remainder strips of a valid region are valid. -/
lemma mem_remainders_valid {clip r s : Rect} (hr : r.IsValid = true)
    (hs : s ∈ remainders clip r) : s.IsValid = true := by
  unfold remainders at hs
  simp only [List.mem_append] at hs
  simp only [Rect.IsValid, Bool.and_eq_true, decide_eq_true_eq] at hr ⊢
  rcases hs with ((h | h) | h) | h <;>
    (obtain ⟨hcond, rfl⟩ := mem_ite_singleton h
     simp only
     omega)

lemma removeClipped_cons_pos {clip a : Rect} {rest : List Rect}
    (hi : intersectsClip clip a = true) :
    removeClipped clip (a :: rest)
      = ((removeClipped clip rest).1, remainders clip a ++ (removeClipped clip rest).2) := by
  simp [removeClipped, hi]

lemma removeClipped_cons_neg {clip a : Rect} {rest : List Rect}
    (hi : intersectsClip clip a = false) :
    removeClipped clip (a :: rest)
      = (a :: (removeClipped clip rest).1, (removeClipped clip rest).2) := by
  simp [removeClipped, hi]

/-- A region surviving the erase loop failed the intersection test. -/
lemma mem_removeClipped_surv {clip : Rect} {l : List Rect} {r : Rect}
    (h : r ∈ (removeClipped clip l).1) : r ∈ l ∧ intersectsClip clip r = false := by
  induction l with
  | nil => simp [removeClipped] at h
  | cons a rest ih =>
    cases hi : intersectsClip clip a with
    | true =>
      rw [removeClipped_cons_pos hi] at h
      obtain ⟨h1, h2⟩ := ih h
      exact ⟨List.mem_cons_of_mem a h1, h2⟩
    | false =>
      rw [removeClipped_cons_neg hi] at h
      rcases List.mem_cons.mp h with rfl | h
      · exact ⟨List.mem_cons_self r rest, hi⟩
      · obtain ⟨h1, h2⟩ := ih h
        exact ⟨List.mem_cons_of_mem a h1, h2⟩

/-- Every staged strip comes from some removed (intersecting) region. -/
lemma mem_removeClipped_staged {clip : Rect} {l : List Rect} {s : Rect}
    (h : s ∈ (removeClipped clip l).2) :
    ∃ r ∈ l, intersectsClip clip r = true ∧ s ∈ remainders clip r := by
  induction l with
  | nil => simp [removeClipped] at h
  | cons a rest ih =>
    cases hi : intersectsClip clip a with
    | true =>
      rw [removeClipped_cons_pos hi] at h
      rcases List.mem_append.mp h with h | h
      · exact ⟨a, List.mem_cons_self a rest, hi, h⟩
      · obtain ⟨r, hr1, hr2, hr3⟩ := ih h
        exact ⟨r, List.mem_cons_of_mem a hr1, hr2, hr3⟩
    | false =>
      rw [removeClipped_cons_neg hi] at h
      obtain ⟨r, hr1, hr2, hr3⟩ := ih h
      exact ⟨r, List.mem_cons_of_mem a hr1, hr2, hr3⟩

/-- A region that fails the intersection test shares no cell with the clip. -/
lemma intersectsClip_false_disjoint {clip r : Rect}
    (h : intersectsClip clip r = false) : ∀ x y, cellIn r x y → ¬ cellIn clip x y := by
  intro x y h1 h2
  have ht : intersectsClip clip r = true := by
    simp only [intersectsClip, Bool.and_eq_true, decide_eq_true_eq]
    simp only [cellIn] at h1 h2
    omega
  rw [h] at ht
  exact Bool.false_ne_true ht

lemma hull_valid {p n : Rect} (hp : p.IsValid = true) (hn : n.IsValid = true) :
    (hull p n).IsValid = true := by
  simp only [hull, Rect.IsValid, Bool.and_eq_true, decide_eq_true_eq] at hp hn ⊢
  omega

/-- Under the merge test, the merged bounding box covers no cell outside the
union of the two merged rectangles. -/
lemma hull_cells {p n : Rect} (hp : p.IsValid = true) (hn : n.IsValid = true)
    (hm : canMerge n p = true) :
    ∀ x y, cellIn (hull p n) x y → cellIn p x y ∨ cellIn n x y := by
  intro x y h
  simp only [hull, cellIn] at h ⊢
  simp only [canMerge, Bool.or_eq_true, Bool.and_eq_true, decide_eq_true_eq] at hm
  simp only [Rect.IsValid, Bool.and_eq_true, decide_eq_true_eq] at hp hn
  omega

lemma mem_insertByKey {l : List Rect} {n r : Rect}
    (h : r ∈ insertByKey l n) : r = n ∨ r ∈ l := by
  unfold insertByKey at h
  simp only [List.mem_append, List.mem_singleton] at h
  rcases h with (h | h) | h
  · exact Or.inr (List.take_subset _ _ h)
  · exact Or.inl h
  · exact Or.inr (List.drop_subset _ _ h)

lemma mergePartner_spec {n p : Rect} {l rest : List Rect}
    (h : mergePartner n l = some (p, rest)) :
    p ∈ l ∧ canMerge n p = true ∧ ∀ r ∈ rest, r ∈ l := by
  induction l generalizing rest with
  | nil => simp [mergePartner] at h
  | cons a tl ih =>
    by_cases hm : canMerge n a = true
    · simp only [mergePartner, hm, if_true, Option.some.injEq, Prod.mk.injEq] at h
      obtain ⟨rfl, rfl⟩ := h
      exact ⟨List.mem_cons_self a tl, hm,
        fun r hr => List.mem_cons_of_mem a hr⟩
    · have hm' : canMerge n a = false := by
        cases hcm : canMerge n a
        · rfl
        · exact absurd hcm hm
      simp only [mergePartner, hm', Bool.false_eq_true, if_false] at h
      cases hrec : mergePartner n tl with
      | none => rw [hrec] at h; exact absurd h (by simp)
      | some pr =>
        obtain ⟨p', rest'⟩ := pr
        rw [hrec] at h
        simp only [Option.some.injEq, Prod.mk.injEq] at h
        obtain ⟨rfl, rfl⟩ := h
        obtain ⟨h1, h2, h3⟩ := ih hrec
        refine ⟨List.mem_cons_of_mem a h1, h2, ?_⟩
        intro r hr
        rcases List.mem_cons.mp hr with rfl | hr
        · exact List.mem_cons_self r tl
        · exact List.mem_cons_of_mem a (h3 r hr)

lemma insertRegion_packinv {clip n : Rect} {l : List Rect}
    (hl : ∀ r ∈ l, PackInv clip r) (hn : PackInv clip n) :
    ∀ r ∈ insertRegion l n, PackInv clip r := by
  intro r hr
  unfold insertRegion at hr
  cases hm : mergePartner n l with
  | none =>
    rw [hm] at hr
    rcases mem_insertByKey hr with rfl | hr
    · exact hn
    · exact hl r hr
  | some pr =>
    obtain ⟨p, rest⟩ := pr
    rw [hm] at hr
    obtain ⟨hp_mem, hp_merge, hrest⟩ := mergePartner_spec hm
    have hp := hl p hp_mem
    rcases mem_insertByKey hr with rfl | hr
    · refine ⟨hull_valid hp.1 hn.1, ?_⟩
      intro x y hc
      rcases hull_cells hp.1 hn.1 hp_merge x y hc with h | h
      · exact hp.2 x y h
      · exact hn.2 x y h
    · exact hl r (hrest r hr)

lemma insertAll_packinv {clip : Rect} {l ns : List Rect}
    (hl : ∀ r ∈ l, PackInv clip r) (hns : ∀ n ∈ ns, PackInv clip n) :
    ∀ r ∈ insertAll l ns, PackInv clip r := by
  induction ns generalizing l with
  | nil => simpa [insertAll] using hl
  | cons n rest ih =>
    simp only [insertAll]
    exact ih
      (insertRegion_packinv hl (hns n (List.mem_cons_self n rest)))
      (fun m hm => hns m (List.mem_cons_of_mem n hm))

/-- Structure of a TryPackArea call: either it fails with the sentinel and an
unchanged bin, or the guard holds, the search found a valid best clip, and the
result is that clip together with the updated region list. -/
lemma tryPackArea_eq (b : Bin) (a : Area) :
    (b.TryPackArea a = (⟨1, 1, 0, 0⟩, b) ∧ (b.TryPackArea a).1.IsValid = false) ∨
    ((0 < a.width ∧ 0 < a.height ∧ a.width ≤ b.dimensions.width ∧
        a.height ≤ b.dimensions.height) ∧
      (searchBest b.emptyRegions a).2.IsValid = true ∧
      b.TryPackArea a =
        ((searchBest b.emptyRegions a).2,
         ⟨b.dimensions,
          insertAll (removeClipped (searchBest b.emptyRegions a).2 b.emptyRegions).1
                    (removeClipped (searchBest b.emptyRegions a).2 b.emptyRegions).2⟩)) := by
  by_cases hg : 0 < a.width ∧ 0 < a.height ∧ a.width ≤ b.dimensions.width ∧
      a.height ≤ b.dimensions.height
  · by_cases hv : (searchBest b.emptyRegions a).2.IsValid = true
    · refine Or.inr ⟨hg, hv, ?_⟩
      simp only [Bin.TryPackArea]
      rw [if_pos hg, if_pos hv]
    · have he : b.TryPackArea a = (⟨1, 1, 0, 0⟩, b) := by
        simp only [Bin.TryPackArea]
        rw [if_pos hg, if_neg hv]
      exact Or.inl ⟨he, by rw [he]; rfl⟩
  · have he : b.TryPackArea a = (⟨1, 1, 0, 0⟩, b) := by
      simp only [Bin.TryPackArea]
      rw [if_neg hg]
    exact Or.inl ⟨he, by rw [he]; rfl⟩

/-- After a successful TryPackArea, every region in the new free-region list
is valid and shares no cell with the returned placement. -/
lemma tryPackArea_packinv {b : Bin} {a : Area} {res : Rect} {b' : Bin}
    (hv : ∀ r ∈ b.emptyRegions, r.IsValid = true)
    (heq : b.TryPackArea a = (res, b')) (hres : res.IsValid = true) :
    ∀ r ∈ b'.emptyRegions, PackInv res r := by
  rcases tryPackArea_eq b a with ⟨h1, h2⟩ | ⟨hg, hbv, h1⟩
  · rw [heq] at h2
    simp only at h2
    rw [h2] at hres
    exact absurd hres Bool.false_ne_true
  · rw [heq] at h1
    obtain ⟨rfl, rfl⟩ : res = (searchBest b.emptyRegions a).2 ∧
        b' = ⟨b.dimensions,
          insertAll (removeClipped (searchBest b.emptyRegions a).2 b.emptyRegions).1
                    (removeClipped (searchBest b.emptyRegions a).2 b.emptyRegions).2⟩ := by
      have e1 := congrArg Prod.fst h1
      have e2 := congrArg Prod.snd h1
      exact ⟨e1, e2⟩
    apply insertAll_packinv
    · intro r hr
      obtain ⟨hmem, hfalse⟩ := mem_removeClipped_surv hr
      exact ⟨hv r hmem, intersectsClip_false_disjoint hfalse⟩
    · intro s hs
      obtain ⟨r, hrmem, _, hsrem⟩ := mem_removeClipped_staged hs
      exact ⟨mem_remainders_valid (hv r hrmem) hsrem,
        fun x y hc => (mem_remainders_cells hsrem x y hc).2⟩

/-- C1, amended: the free regions of a Bin are not pairwise disjoint in
general (full-height and full-width remainder strips of one removed region
overlap); what does hold is that no free region overlaps the placed
rectangle: immediately after a successful `TryPackArea`, every element of
`GetEmptyRegions()` is cell-disjoint from the returned Rect. -/
theorem C1_amended_no_region_overlaps_placement :
    ∀ (b : Bin) (a : Area) (res : Rect) (b' : Bin),
      (∀ r ∈ b.GetEmptyRegions, r.IsValid = true) →
      b.TryPackArea a = (res, b') → res.IsValid = true →
      ∀ r ∈ b'.GetEmptyRegions, ∀ x y, cellIn r x y → ¬ cellIn res x y := by
  intro b a res b' hv heq hres r hr x y hc
  exact (tryPackArea_packinv hv heq hres r hr).2 x y hc

/-- Witness for the amended C1: after packing 2×2 into a 5×5 bin with free
region `{0,0,4,4}`, the theorem applied to the new free region `{2,0,4,4}`
and its cell `(2,0)` shows that cell lies outside the placed rectangle. -/
theorem C1_amended_witness : ¬ cellIn ⟨0, 0, 1, 1⟩ 2 0 :=
  C1_amended_no_region_overlaps_placement ⟨⟨5, 5⟩, [⟨0, 0, 4, 4⟩]⟩ ⟨2, 2⟩
    ⟨0, 0, 1, 1⟩ ⟨⟨5, 5⟩, [⟨2, 0, 4, 4⟩, ⟨0, 2, 4, 4⟩]⟩
    (by decide) (by decide) (by decide)
    ⟨2, 0, 4, 4⟩ (by decide) 2 0 (by decide)

end BinPacker

namespace BinPacker

/-- C8, amended: the remainder strips staged for a removed region cover
exactly the set difference `region \ clip` — every cell of a strip lies in the
region and outside the clip, and every such cell lies in some strip — but the
strips are maximal full-height/full-width strips and need not be pairwise
disjoint. -/
theorem C8_amended_exact_union :
    ∀ (r clip : Rect), intersectsClip clip r = true →
      ∀ x y, ((∃ s ∈ remainders clip r, cellIn s x y) ↔
        (cellIn r x y ∧ ¬ cellIn clip x y)) := by
  intro r clip hint x y
  constructor
  · rintro ⟨s, hs, hc⟩
    exact mem_remainders_cells hs x y hc
  · rintro ⟨hr, hnc⟩
    simp only [intersectsClip, Bool.and_eq_true, decide_eq_true_eq] at hint
    simp only [cellIn] at hr hnc
    have hpos : x < clip.left ∨ clip.right < x ∨ y < clip.top ∨ clip.bottom < y := by
      omega
    rcases hpos with hp | hp | hp | hp
    · refine ⟨⟨r.left, r.top, clip.left - 1, r.bottom⟩, ?_, ?_⟩
      · unfold remainders
        simp only [List.mem_append]
        left; left; left
        exact mem_ite_singleton_self (by omega) _
      · simp only [cellIn]
        omega
    · refine ⟨⟨clip.right + 1, r.top, r.right, r.bottom⟩, ?_, ?_⟩
      · unfold remainders
        simp only [List.mem_append]
        left; right
        exact mem_ite_singleton_self (by omega) _
      · simp only [cellIn]
        omega
    · refine ⟨⟨r.left, r.top, r.right, clip.top - 1⟩, ?_, ?_⟩
      · unfold remainders
        simp only [List.mem_append]
        left; left; right
        exact mem_ite_singleton_self (by omega) _
      · simp only [cellIn]
        omega
    · refine ⟨⟨r.left, clip.bottom + 1, r.right, r.bottom⟩, ?_, ?_⟩
      · unfold remainders
        simp only [List.mem_append]
        right
        exact mem_ite_singleton_self (by omega) _
      · simp only [cellIn]
        omega

/-- Witness for the amended C8: the strip `{2,0,4,4}` of the removal of
`{0,0,4,4}` by clip `{0,0,1,1}` contains the cell `(3,3)`, so by the theorem
that cell lies in the region and outside the clip. -/
theorem C8_amended_witness :
    cellIn ⟨0, 0, 4, 4⟩ 3 3 ∧ ¬ cellIn ⟨0, 0, 1, 1⟩ 3 3 :=
  (C8_amended_exact_union ⟨0, 0, 4, 4⟩ ⟨0, 0, 1, 1⟩ (by decide) 3 3).mp
    ⟨⟨2, 0, 4, 4⟩, by decide, by decide⟩

/-- C2, amended: conservation does hold for the two-step growth of an empty
bin that the code handles correctly (width first while the height is still 0,
then height): the result is the single full-bin free region, whose area is
`width × height`.  The general claim fails: a both-components extension of a
fresh bin creates a free region one column wider than the bin, and the
remainder strips of a successful pack overlap, so the plain sum of
free-region areas double-counts. -/
theorem C2_amended_two_step_conservation :
    ∀ w h : Nat, 0 < w → 0 < h →
      ((Bin.fresh.ExtendDimensions ⟨w, 0⟩).ExtendDimensions ⟨0, h⟩).GetEmptyRegions
        = [⟨0, 0, w - 1, h - 1⟩] ∧
      (((Bin.fresh.ExtendDimensions ⟨w, 0⟩).ExtendDimensions ⟨0, h⟩).GetEmptyRegions.map
          rectArea).sum
        = (((Bin.fresh.ExtendDimensions ⟨w, 0⟩).ExtendDimensions
              ⟨0, h⟩).GetDimensions.width : Int)
          * (((Bin.fresh.ExtendDimensions ⟨w, 0⟩).ExtendDimensions
              ⟨0, h⟩).GetDimensions.height : Int) := by
  intro w h hw hh
  have e1 : Bin.fresh.ExtendDimensions ⟨w, 0⟩ = ⟨⟨w, 0⟩, []⟩ := by
    simp [Bin.ExtendDimensions, Bin.fresh]
  have e2 : (⟨⟨w, 0⟩, []⟩ : Bin).ExtendDimensions ⟨0, h⟩
      = ⟨⟨w, h⟩, [⟨0, 0, w - 1, h - 1⟩]⟩ := by
    simp [Bin.ExtendDimensions, hw, hh]
  rw [e1, e2]
  refine ⟨rfl, ?_⟩
  simp only [Bin.GetEmptyRegions, Bin.GetDimensions, List.map_cons, List.map_nil,
    List.sum_cons, List.sum_nil, add_zero, rectArea]
  have hw1 : ((w - 1 : ℕ) : ℤ) = (w : ℤ) - 1 := by omega
  have hh1 : ((h - 1 : ℕ) : ℤ) = (h : ℤ) - 1 := by omega
  rw [hw1, hh1]
  push_cast
  ring

/-- Witness for the amended C2 at `w = h = 5`. -/
theorem C2_amended_witness :
    ((Bin.fresh.ExtendDimensions ⟨5, 0⟩).ExtendDimensions ⟨0, 5⟩).GetEmptyRegions
      = [⟨0, 0, 4, 4⟩] ∧
    (((Bin.fresh.ExtendDimensions ⟨5, 0⟩).ExtendDimensions ⟨0, 5⟩).GetEmptyRegions.map
        rectArea).sum
      = (((Bin.fresh.ExtendDimensions ⟨5, 0⟩).ExtendDimensions
            ⟨0, 5⟩).GetDimensions.width : Int)
        * (((Bin.fresh.ExtendDimensions ⟨5, 0⟩).ExtendDimensions
            ⟨0, 5⟩).GetDimensions.height : Int) :=
  C2_amended_two_step_conservation 5 5 (by decide) (by decide)

end BinPacker

namespace BinPacker

lemma tryCorner_best_cases (regs : List Rect) (c : Rect) (acc : Int × Rect) :
    (tryCorner regs c acc).1.2 = acc.2 ∨ (tryCorner regs c acc).1.2 = c := by
  simp only [tryCorner]
  by_cases h : totalScore regs c < acc.1
  · right
    rw [if_pos h]
  · left
    rw [if_neg h]

lemma tryCorners_best_cases (regs cs : List Rect) (acc : Int × Rect) :
    (tryCorners regs cs acc).1.2 = acc.2 ∨ (tryCorners regs cs acc).1.2 ∈ cs := by
  induction cs generalizing acc with
  | nil => left; rfl
  | cons c rest ih =>
    simp only [tryCorners]
    by_cases hb : (tryCorner regs c acc).2 = true
    · simp only [hb, if_true]
      rcases tryCorner_best_cases regs c acc with h | h
      · left; exact h
      · right
        rw [h]
        exact List.mem_cons_self c rest
    · simp only [hb, Bool.false_eq_true, if_false]
      rcases ih ((tryCorner regs c acc).1) with h | h
      · rcases tryCorner_best_cases regs c acc with h2 | h2
        · left
          rw [h, h2]
        · right
          rw [h, h2]
          exact List.mem_cons_self c rest
      · right
        exact List.mem_cons_of_mem c h

lemma tryRegion_best_cases (regs : List Rect) (a : Area) (r : Rect) (acc : Int × Rect) :
    (tryRegion regs a r acc).1.2 = acc.2 ∨
      (fits r a = true ∧ (tryRegion regs a r acc).1.2 ∈
        [cornerNW r a, cornerNE r a, cornerSW r a, cornerSE r a]) := by
  by_cases hf : fits r a = true
  · have hrw : tryRegion regs a r acc
        = tryCorners regs [cornerNW r a, cornerNE r a, cornerSW r a, cornerSE r a] acc := by
      simp only [tryRegion]
      rw [if_pos hf]
    rw [hrw]
    rcases tryCorners_best_cases regs
        [cornerNW r a, cornerNE r a, cornerSW r a, cornerSE r a] acc with h | h
    · left; exact h
    · right; exact ⟨hf, h⟩
  · left
    simp only [tryRegion]
    rw [if_neg hf]

lemma scanRegions_best_cases (regs : List Rect) (a : Area) (l : List Rect)
    (acc : Int × Rect) :
    (scanRegions regs a l acc).2 = acc.2 ∨
      ∃ r ∈ l, fits r a = true ∧ (scanRegions regs a l acc).2 ∈
        [cornerNW r a, cornerNE r a, cornerSW r a, cornerSE r a] := by
  induction l generalizing acc with
  | nil => left; rfl
  | cons r rest ih =>
    simp only [scanRegions]
    by_cases hb : (tryRegion regs a r acc).2 = true
    · simp only [hb, if_true]
      rcases tryRegion_best_cases regs a r acc with h | ⟨hf, hmem⟩
      · left; exact h
      · right; exact ⟨r, List.mem_cons_self r rest, hf, hmem⟩
    · simp only [hb, Bool.false_eq_true, if_false]
      rcases ih ((tryRegion regs a r acc).1) with h | ⟨r', hr', hf', hmem'⟩
      · rw [h]
        rcases tryRegion_best_cases regs a r acc with h2 | ⟨hf, hmem⟩
        · left; exact h2
        · right; exact ⟨r, List.mem_cons_self r rest, hf, hmem⟩
      · right; exact ⟨r', List.mem_cons_of_mem r hr', hf', hmem'⟩

/-- A valid best rectangle returned by the search is one of the four corner
clips of some free region that fits the area in one of its two
orientations. -/
lemma searchBest_anchor (regs : List Rect) (area : Area)
    (h : (searchBest regs area).2.IsValid = true) :
    ∃ r ∈ regs, ∃ a : Area, (a = area ∨ a = ⟨area.height, area.width⟩) ∧
      fits r a = true ∧ (searchBest regs area).2 ∈
        [cornerNW r a, cornerNE r a, cornerSW r a, cornerSE r a] := by
  by_cases h0 : (scanRegions regs area regs (intMax, ⟨1, 1, 0, 0⟩)).1 = 0
  · have hB : (searchBest regs area).2
        = (scanRegions regs area regs (intMax, ⟨1, 1, 0, 0⟩)).2 := by
      simp only [searchBest]
      rw [if_pos h0]
    rcases scanRegions_best_cases regs area regs (intMax, ⟨1, 1, 0, 0⟩) with hc | ⟨r, hr, hf, hm⟩
    · rw [hB, hc] at h
      exact absurd h (by decide)
    · exact ⟨r, hr, area, Or.inl rfl, hf, hB ▸ hm⟩
  · have hB : (searchBest regs area).2
        = (scanRegions regs ⟨area.height, area.width⟩ regs
            (scanRegions regs area regs (intMax, ⟨1, 1, 0, 0⟩))).2 := by
      simp only [searchBest]
      rw [if_neg h0]
    rcases scanRegions_best_cases regs ⟨area.height, area.width⟩ regs
        (scanRegions regs area regs (intMax, ⟨1, 1, 0, 0⟩)) with hc | ⟨r, hr, hf, hm⟩
    · rcases scanRegions_best_cases regs area regs (intMax, ⟨1, 1, 0, 0⟩) with hc1 | ⟨r, hr, hf, hm⟩
      · rw [hB, hc, hc1] at h
        exact absurd h (by decide)
      · exact ⟨r, hr, area, Or.inl rfl, hf, by rw [hB, hc]; exact hm⟩
    · exact ⟨r, hr, ⟨area.height, area.width⟩, Or.inr rfl, hf, hB ▸ hm⟩

/-- Geometry of a corner clip in a valid fitting region: the clip is valid,
contained in the region, and has exactly the oriented area's width and
height. -/
lemma corner_geometry {r c : Rect} {a : Area} (hr : r.IsValid = true)
    (hf : fits r a = true) (hw : 0 < a.width) (hh : 0 < a.height)
    (hc : c ∈ [cornerNW r a, cornerNE r a, cornerSW r a, cornerSE r a]) :
    c.IsValid = true ∧ r.left ≤ c.left ∧ c.right ≤ r.right ∧ r.top ≤ c.top ∧
      c.bottom ≤ r.bottom ∧ c.right + 1 - c.left = a.width ∧
      c.bottom + 1 - c.top = a.height := by
  simp only [Rect.IsValid, Bool.and_eq_true, decide_eq_true_eq] at hr
  simp only [fits, Bool.and_eq_true, decide_eq_true_eq] at hf
  simp only [List.mem_cons, List.not_mem_nil, or_false] at hc
  rcases hc with rfl | rfl | rfl | rfl <;>
    (simp only [cornerNW, cornerNE, cornerSW, cornerSE, Rect.IsValid,
      Bool.and_eq_true, decide_eq_true_eq]
     omega)

end BinPacker

namespace BinPacker

/-- C9: a valid Rect returned by TryPackArea has exactly the requested
dimensions in one of the two orientations and is contained in one of the free
regions present at the start of the call. -/
theorem C9_placement_shape :
    ∀ (b : Bin) (a : Area) (res : Rect) (b' : Bin),
      (∀ r ∈ b.GetEmptyRegions, r.IsValid = true) →
      b.TryPackArea a = (res, b') → res.IsValid = true →
      ((res.right + 1 - res.left = a.width ∧ res.bottom + 1 - res.top = a.height) ∨
       (res.right + 1 - res.left = a.height ∧ res.bottom + 1 - res.top = a.width)) ∧
      ∃ r ∈ b.GetEmptyRegions, r.left ≤ res.left ∧ res.right ≤ r.right ∧
        r.top ≤ res.top ∧ res.bottom ≤ r.bottom := by
  intro b a res b' hv heq hres
  rcases tryPackArea_eq b a with ⟨h1, h2⟩ | ⟨hg, hbv, h1⟩
  · rw [heq] at h2
    simp only at h2
    rw [h2] at hres
    exact absurd hres Bool.false_ne_true
  · have hres_eq : res = (searchBest b.emptyRegions a).2 := by
      rw [heq] at h1
      exact congrArg Prod.fst h1
    obtain ⟨r0, hr0, aa, hor, hf, hmem⟩ :=
      searchBest_anchor b.emptyRegions a (hres_eq ▸ hres)
    have hw : 0 < aa.width ∧ 0 < aa.height := by
      rcases hor with rfl | rfl
      · exact ⟨hg.1, hg.2.1⟩
      · exact ⟨hg.2.1, hg.1⟩
    have hgeo := corner_geometry (hv r0 hr0) hf hw.1 hw.2 (hres_eq ▸ hmem)
    obtain ⟨hcv, hl, hr2, ht, hb2, hwd, hht⟩ := hgeo
    constructor
    · rcases hor with rfl | rfl
      · exact Or.inl ⟨hwd, hht⟩
      · exact Or.inr ⟨hwd, hht⟩
    · exact ⟨r0, hr0, hl, hr2, ht, hb2⟩

/-- Witness for C9: the dimension part at the concrete successful call
packing 2×2 into the 5×5 bin with free region `{0,0,4,4}`. -/
theorem C9_placement_shape_witness :
    (((⟨0, 0, 1, 1⟩ : Rect).right + 1 - (⟨0, 0, 1, 1⟩ : Rect).left = 2 ∧
      (⟨0, 0, 1, 1⟩ : Rect).bottom + 1 - (⟨0, 0, 1, 1⟩ : Rect).top = 2) ∨
     ((⟨0, 0, 1, 1⟩ : Rect).right + 1 - (⟨0, 0, 1, 1⟩ : Rect).left = 2 ∧
      (⟨0, 0, 1, 1⟩ : Rect).bottom + 1 - (⟨0, 0, 1, 1⟩ : Rect).top = 2)) :=
  (C9_placement_shape ⟨⟨5, 5⟩, [⟨0, 0, 4, 4⟩]⟩ ⟨2, 2⟩ ⟨0, 0, 1, 1⟩
    ⟨⟨5, 5⟩, [⟨2, 0, 4, 4⟩, ⟨0, 2, 4, 4⟩]⟩ (by decide) (by decide) (by decide)).1

/-- C6: a TryPackArea call leaves the Bin (dimensions and free-region
sequence) unchanged exactly when it fails: the returned Rect is invalid if
and only if the resulting Bin equals the original. -/
theorem C6_failure_iff_unchanged :
    ∀ (b : Bin) (a : Area), (∀ r ∈ b.GetEmptyRegions, r.IsValid = true) →
      ((b.TryPackArea a).1.IsValid = false ↔ (b.TryPackArea a).2 = b) := by
  intro b a hv
  rcases tryPackArea_eq b a with ⟨h1, h2⟩ | ⟨hg, hbv, h1⟩
  · constructor
    · intro _
      rw [h1]
    · intro _
      exact h2
  · constructor
    · intro hfalse
      rw [h1] at hfalse
      simp only at hfalse
      rw [hfalse] at hbv
      exact absurd hbv Bool.false_ne_true
    · intro hunch
      exfalso
      obtain ⟨r0, hr0, aa, hor, hf, hmem⟩ := searchBest_anchor b.emptyRegions a hbv
      have hw : 0 < aa.width ∧ 0 < aa.height := by
        rcases hor with rfl | rfl
        · exact ⟨hg.1, hg.2.1⟩
        · exact ⟨hg.2.1, hg.1⟩
      obtain ⟨hcv, hl, hr2, ht, hb2, hwd, hht⟩ :=
        corner_geometry (hv r0 hr0) hf hw.1 hw.2 hmem
      have hres : (searchBest b.emptyRegions a).2.IsValid = true := hbv
      have hpack := tryPackArea_packinv hv h1 hres
      rw [h1] at hunch
      have hreg := congrArg Bin.emptyRegions hunch
      simp only at hreg
      have hmem' : r0 ∈ (insertAll
          (removeClipped (searchBest b.emptyRegions a).2 b.emptyRegions).1
          (removeClipped (searchBest b.emptyRegions a).2 b.emptyRegions).2) := by
        rw [hreg]
        exact hr0
      have hinv := hpack r0 hmem'
      simp only [Rect.IsValid, Bool.and_eq_true, decide_eq_true_eq] at hcv
      have hc1 : cellIn r0 (searchBest b.emptyRegions a).2.left
          (searchBest b.emptyRegions a).2.top := by
        simp only [cellIn]
        omega
      have hc2 : cellIn (searchBest b.emptyRegions a).2
          (searchBest b.emptyRegions a).2.left
          (searchBest b.emptyRegions a).2.top := by
        simp only [cellIn]
        omega
      exact hinv.2 _ _ hc1 hc2

/-- Witness for C6 at a concrete successful call (state changes) — the iff
instance delivered by the theorem. -/
theorem C6_failure_iff_unchanged_witness :
    ((⟨⟨5, 5⟩, [⟨0, 0, 4, 4⟩]⟩ : Bin).TryPackArea ⟨2, 2⟩).1.IsValid = false ↔
    ((⟨⟨5, 5⟩, [⟨0, 0, 4, 4⟩]⟩ : Bin).TryPackArea ⟨2, 2⟩).2
      = ⟨⟨5, 5⟩, [⟨0, 0, 4, 4⟩]⟩ :=
  C6_failure_iff_unchanged ⟨⟨5, 5⟩, [⟨0, 0, 4, 4⟩]⟩ ⟨2, 2⟩ (by decide)

end BinPacker

namespace BinPacker

lemma intMax_pos : (0 : Int) < intMax := by norm_num [intMax]

lemma rectArea_pos {r : Rect} (hr : r.IsValid = true) : 0 < rectArea r := by
  simp only [Rect.IsValid, Bool.and_eq_true, decide_eq_true_eq] at hr
  unfold rectArea
  have h1 : (0 : ℤ) < (r.right : ℤ) - r.left + 1 := by omega
  have h2 : (0 : ℤ) < (r.bottom : ℤ) - r.top + 1 := by omega
  exact mul_pos h1 h2

lemma clipScoreFactor_bounds {region clip : Rect} (hr : region.IsValid = true) :
    0 ≤ clipScoreFactor region clip ∧ clipScoreFactor region clip ≤ 4 := by
  simp only [Rect.IsValid, Bool.and_eq_true, decide_eq_true_eq] at hr
  unfold clipScoreFactor
  constructor <;> (split_ifs <;> omega)

lemma GetClipScore_bounds {r c : Rect} (hr : r.IsValid = true) (hc : c.IsValid = true) :
    0 ≤ GetClipScore r c ∧ GetClipScore r c ≤ 4 * rectArea r := by
  have hpos := rectArea_pos hr
  obtain ⟨hf0, hf4⟩ := @clipScoreFactor_bounds r c hr
  simp only [Rect.IsValid, Bool.and_eq_true, decide_eq_true_eq] at hr hc
  unfold GetClipScore
  by_cases h : r.right < c.left ∨ c.right < r.left ∨ r.bottom < c.top ∨ c.bottom < r.top
  · rw [if_pos h]
    omega
  · rw [if_neg h]
    push_neg at h
    have w1 : (0 : ℤ) ≤ ((min r.right c.right : ℕ) : ℤ)
        - ((max r.left c.left : ℕ) : ℤ) + 1 := by omega
    have w2 : ((min r.right c.right : ℕ) : ℤ) - ((max r.left c.left : ℕ) : ℤ) + 1
        ≤ (r.right : ℤ) - r.left + 1 := by omega
    have v1 : (0 : ℤ) ≤ ((min r.bottom c.bottom : ℕ) : ℤ)
        - ((max r.top c.top : ℕ) : ℤ) + 1 := by omega
    have v2 : ((min r.bottom c.bottom : ℕ) : ℤ) - ((max r.top c.top : ℕ) : ℤ) + 1
        ≤ (r.bottom : ℤ) - r.top + 1 := by omega
    have hinter0 : 0 ≤ rectArea (intersectionRect r c) := by
      simp only [rectArea, intersectionRect]
      exact mul_nonneg w1 v1
    have hinterle : rectArea (intersectionRect r c) ≤ rectArea r := by
      simp only [rectArea, intersectionRect]
      exact mul_le_mul w2 v2 v1 (by omega)
    constructor
    · exact mul_nonneg hf0 (by omega)
    · calc clipScoreFactor r c * (rectArea r - rectArea (intersectionRect r c))
          ≤ 4 * (rectArea r - rectArea (intersectionRect r c)) :=
            mul_le_mul_of_nonneg_right hf4 (by omega)
        _ ≤ 4 * rectArea r := by omega

lemma totalScore_bounds {regs : List Rect} {c : Rect}
    (hv : ∀ r ∈ regs, r.IsValid = true) (hc : c.IsValid = true) :
    0 ≤ totalScore regs c ∧ totalScore regs c ≤ 4 * (regs.map rectArea).sum := by
  have key : ∀ l : List Rect, (∀ r ∈ l, r.IsValid = true) → ∀ init : Int,
      init ≤ l.foldl (fun s r => s + GetClipScore r c) init ∧
      l.foldl (fun s r => s + GetClipScore r c) init
        ≤ init + 4 * (l.map rectArea).sum := by
    intro l
    induction l with
    | nil =>
      intro _ init
      simp
    | cons rhd rtl ih =>
      intro hvl init
      have hb := GetClipScore_bounds (hvl rhd (List.mem_cons_self rhd rtl)) hc
      have ihh := ih (fun r hr => hvl r (List.mem_cons_of_mem rhd hr))
        (init + GetClipScore rhd c)
      simp only [List.foldl_cons, List.map_cons, List.sum_cons]
      constructor
      · calc init ≤ init + GetClipScore rhd c := by omega
          _ ≤ _ := ihh.1
      · calc List.foldl (fun s r => s + GetClipScore r c) (init + GetClipScore rhd c) rtl
            ≤ init + GetClipScore rhd c + 4 * (rtl.map rectArea).sum := ihh.2
          _ ≤ init + 4 * (rectArea rhd + (rtl.map rectArea).sum) := by
              have h2 := hb.2
              omega
  obtain ⟨k1, k2⟩ := key regs hv 0
  refine ⟨?_, ?_⟩ <;> simp only [totalScore] <;> omega

lemma tryCorner_min_le (regs : List Rect) (c : Rect) (acc : Int × Rect) :
    (tryCorner regs c acc).1.1 ≤ acc.1 := by
  simp only [tryCorner]
  by_cases h : totalScore regs c < acc.1
  · rw [if_pos h]
    exact le_of_lt h
  · rw [if_neg h]

lemma tryCorner_min_lt (regs : List Rect) (c : Rect) (acc : Int × Rect)
    (h : totalScore regs c < intMax) : (tryCorner regs c acc).1.1 < intMax := by
  simp only [tryCorner]
  by_cases hs : totalScore regs c < acc.1
  · rw [if_pos hs]
    exact h
  · rw [if_neg hs]
    push_neg at hs
    exact lt_of_le_of_lt hs h

lemma tryCorner_validbest (regs : List Rect) (c : Rect) (acc : Int × Rect)
    (hc : c.IsValid = true) (hi : acc.1 < intMax → acc.2.IsValid = true) :
    (tryCorner regs c acc).1.1 < intMax → (tryCorner regs c acc).1.2.IsValid = true := by
  simp only [tryCorner]
  by_cases hs : totalScore regs c < acc.1
  · rw [if_pos hs]
    exact fun _ => hc
  · rw [if_neg hs]
    exact hi

lemma tryCorner_break (regs : List Rect) (c : Rect) (acc : Int × Rect)
    (h : (tryCorner regs c acc).2 = true) : (tryCorner regs c acc).1.1 = 0 := by
  simp only [tryCorner] at h ⊢
  by_cases hs : totalScore regs c < acc.1
  · rw [if_pos hs] at h ⊢
    simp only [decide_eq_true_eq] at h
    exact h
  · rw [if_neg hs] at h
    exact absurd h Bool.false_ne_true

lemma tryCorners_min_le (regs : List Rect) :
    ∀ (cs : List Rect) (acc : Int × Rect), (tryCorners regs cs acc).1.1 ≤ acc.1 := by
  intro cs
  induction cs with
  | nil => intro acc; exact le_refl _
  | cons c rest ih =>
    intro acc
    simp only [tryCorners]
    by_cases hb : (tryCorner regs c acc).2 = true
    · simp only [hb, if_true]
      exact tryCorner_min_le regs c acc
    · simp only [hb, Bool.false_eq_true, if_false]
      exact le_trans (ih _) (tryCorner_min_le regs c acc)

lemma tryCorners_validbest (regs : List Rect) :
    ∀ (cs : List Rect) (acc : Int × Rect), (∀ c ∈ cs, c.IsValid = true) →
      (acc.1 < intMax → acc.2.IsValid = true) →
      (tryCorners regs cs acc).1.1 < intMax →
      (tryCorners regs cs acc).1.2.IsValid = true := by
  intro cs
  induction cs with
  | nil => intro acc _ hi; exact hi
  | cons c rest ih =>
    intro acc hcs hi
    simp only [tryCorners]
    by_cases hb : (tryCorner regs c acc).2 = true
    · simp only [hb, if_true]
      exact tryCorner_validbest regs c acc (hcs c (List.mem_cons_self c rest)) hi
    · simp only [hb, Bool.false_eq_true, if_false]
      exact ih _ (fun d hd => hcs d (List.mem_cons_of_mem c hd))
        (tryCorner_validbest regs c acc (hcs c (List.mem_cons_self c rest)) hi)

lemma tryCorners_break (regs : List Rect) :
    ∀ (cs : List Rect) (acc : Int × Rect), (tryCorners regs cs acc).2 = true →
      (tryCorners regs cs acc).1.1 = 0 := by
  intro cs
  induction cs with
  | nil => intro acc h; exact absurd h Bool.false_ne_true
  | cons c rest ih =>
    intro acc h
    simp only [tryCorners] at h ⊢
    by_cases hb : (tryCorner regs c acc).2 = true
    · simp only [hb, if_true] at h ⊢
      exact tryCorner_break regs c acc hb
    · simp only [hb, Bool.false_eq_true, if_false] at h ⊢
      exact ih _ h

lemma tryCorners_min_lt (regs : List Rect) (c : Rect) (rest : List Rect)
    (acc : Int × Rect) (h : totalScore regs c < intMax) :
    (tryCorners regs (c :: rest) acc).1.1 < intMax := by
  simp only [tryCorners]
  by_cases hb : (tryCorner regs c acc).2 = true
  · simp only [hb, if_true]
    exact tryCorner_min_lt regs c acc h
  · simp only [hb, Bool.false_eq_true, if_false]
    exact lt_of_le_of_lt (tryCorners_min_le regs rest _) (tryCorner_min_lt regs c acc h)

lemma corners_valid {a : Area} (hw : 0 < a.width) (hh : 0 < a.height) (r : Rect) :
    ∀ c ∈ [cornerNW r a, cornerNE r a, cornerSW r a, cornerSE r a],
      c.IsValid = true := by
  intro c hc
  simp only [List.mem_cons, List.not_mem_nil, or_false] at hc
  rcases hc with rfl | rfl | rfl | rfl <;>
    (simp only [cornerNW, cornerNE, cornerSW, cornerSE, Rect.IsValid,
      Bool.and_eq_true, decide_eq_true_eq]
     omega)

lemma tryRegion_min_le (regs : List Rect) (a : Area) (r : Rect) (acc : Int × Rect) :
    (tryRegion regs a r acc).1.1 ≤ acc.1 := by
  simp only [tryRegion]
  by_cases hf : fits r a = true
  · rw [if_pos hf]
    exact tryCorners_min_le regs _ acc
  · rw [if_neg hf]

lemma tryRegion_validbest (regs : List Rect) (a : Area) (r : Rect) (acc : Int × Rect)
    (hw : 0 < a.width) (hh : 0 < a.height)
    (hi : acc.1 < intMax → acc.2.IsValid = true) :
    (tryRegion regs a r acc).1.1 < intMax → (tryRegion regs a r acc).1.2.IsValid = true := by
  simp only [tryRegion]
  by_cases hf : fits r a = true
  · rw [if_pos hf]
    exact tryCorners_validbest regs _ acc (corners_valid hw hh r) hi
  · rw [if_neg hf]
    exact hi

lemma tryRegion_min_lt (regs : List Rect) (a : Area) (r : Rect) (acc : Int × Rect)
    (hf : fits r a = true) (hS : totalScore regs (cornerNW r a) < intMax) :
    (tryRegion regs a r acc).1.1 < intMax := by
  simp only [tryRegion]
  rw [if_pos hf]
  exact tryCorners_min_lt regs (cornerNW r a) _ acc hS

lemma tryRegion_break (regs : List Rect) (a : Area) (r : Rect) (acc : Int × Rect)
    (h : (tryRegion regs a r acc).2 = true) : (tryRegion regs a r acc).1.1 = 0 := by
  simp only [tryRegion] at h ⊢
  by_cases hf : fits r a = true
  · rw [if_pos hf] at h ⊢
    exact tryCorners_break regs _ acc h
  · rw [if_neg hf] at h
    exact absurd h Bool.false_ne_true

lemma scanRegions_min_le (regs : List Rect) (a : Area) :
    ∀ (l : List Rect) (acc : Int × Rect), (scanRegions regs a l acc).1 ≤ acc.1 := by
  intro l
  induction l with
  | nil => intro acc; exact le_refl _
  | cons r rest ih =>
    intro acc
    simp only [scanRegions]
    by_cases hb : (tryRegion regs a r acc).2 = true
    · simp only [hb, if_true]
      exact tryRegion_min_le regs a r acc
    · simp only [hb, Bool.false_eq_true, if_false]
      exact le_trans (ih _) (tryRegion_min_le regs a r acc)

lemma scanRegions_validbest (regs : List Rect) (a : Area)
    (hw : 0 < a.width) (hh : 0 < a.height) :
    ∀ (l : List Rect) (acc : Int × Rect), (acc.1 < intMax → acc.2.IsValid = true) →
      (scanRegions regs a l acc).1 < intMax →
      (scanRegions regs a l acc).2.IsValid = true := by
  intro l
  induction l with
  | nil => intro acc hi; exact hi
  | cons r rest ih =>
    intro acc hi
    simp only [scanRegions]
    by_cases hb : (tryRegion regs a r acc).2 = true
    · simp only [hb, if_true]
      exact tryRegion_validbest regs a r acc hw hh hi
    · simp only [hb, Bool.false_eq_true, if_false]
      exact ih _ (tryRegion_validbest regs a r acc hw hh hi)

lemma scanRegions_min_lt (regs : List Rect) (a : Area)
    (hS : ∀ c : Rect, c.IsValid = true → totalScore regs c < intMax)
    (hw : 0 < a.width) (hh : 0 < a.height) :
    ∀ (l : List Rect) (acc : Int × Rect), (∃ r ∈ l, fits r a = true) →
      (scanRegions regs a l acc).1 < intMax := by
  intro l
  induction l with
  | nil =>
    rintro acc ⟨r, hr, _⟩
    exact absurd hr (List.not_mem_nil r)
  | cons r rest ih =>
    rintro acc ⟨r', hr', hf'⟩
    simp only [scanRegions]
    by_cases hb : (tryRegion regs a r acc).2 = true
    · simp only [hb, if_true]
      rw [tryRegion_break regs a r acc hb]
      exact intMax_pos
    · simp only [hb, Bool.false_eq_true, if_false]
      rcases List.mem_cons.mp hr' with rfl | hmem
      · exact lt_of_le_of_lt (scanRegions_min_le regs a rest _)
          (tryRegion_min_lt regs a r' acc hf'
            (hS _ (corners_valid hw hh r' (cornerNW r' a)
              (List.mem_cons_self _ _))))
      · exact ih _ ⟨r', hmem, hf'⟩

/-- If the guard holds and some region fits the area in some orientation (and
the total free area is small enough that no candidate's score reaches the
`INT_MAX` sentinel), the search produces a valid best rectangle. -/
lemma searchBest_found (regs : List Rect) (area : Area)
    (hv : ∀ r ∈ regs, r.IsValid = true)
    (hw : 0 < area.width) (hh : 0 < area.height)
    (hbound : 4 * (regs.map rectArea).sum < intMax)
    (hex : ∃ r ∈ regs, fits r area = true ∨ fits r ⟨area.height, area.width⟩ = true) :
    (searchBest regs area).2.IsValid = true := by
  have hS : ∀ c : Rect, c.IsValid = true → totalScore regs c < intMax := by
    intro c hc
    exact lt_of_le_of_lt (totalScore_bounds hv hc).2 hbound
  have hinit : ((intMax, (⟨1, 1, 0, 0⟩ : Rect)) : Int × Rect).1 < intMax →
      ((intMax, (⟨1, 1, 0, 0⟩ : Rect)) : Int × Rect).2.IsValid = true := by
    intro hx
    exact absurd hx (lt_irrefl _)
  have hi1 := scanRegions_validbest regs area hw hh regs (intMax, ⟨1, 1, 0, 0⟩) hinit
  by_cases h0 : (scanRegions regs area regs (intMax, ⟨1, 1, 0, 0⟩)).1 = 0
  · have hB : searchBest regs area = scanRegions regs area regs (intMax, ⟨1, 1, 0, 0⟩) := by
      simp only [searchBest]
      rw [if_pos h0]
    rw [hB]
    exact hi1 (by rw [h0]; exact intMax_pos)
  · have hB : searchBest regs area
        = scanRegions regs ⟨area.height, area.width⟩ regs
            (scanRegions regs area regs (intMax, ⟨1, 1, 0, 0⟩)) := by
      simp only [searchBest]
      rw [if_neg h0]
    rw [hB]
    have hi2 := scanRegions_validbest regs ⟨area.height, area.width⟩ hh hw regs
      (scanRegions regs area regs (intMax, ⟨1, 1, 0, 0⟩)) hi1
    rcases hex with ⟨r, hrm, hfo | hfr⟩
    · have hlt1 : (scanRegions regs area regs (intMax, ⟨1, 1, 0, 0⟩)).1 < intMax :=
        scanRegions_min_lt regs area hS hw hh regs _ ⟨r, hrm, hfo⟩
      exact hi2 (lt_of_le_of_lt
        (scanRegions_min_le regs ⟨area.height, area.width⟩ regs _) hlt1)
    · exact hi2 (scanRegions_min_lt regs ⟨area.height, area.width⟩ hS hh hw regs _
        ⟨r, hrm, hfr⟩)

end BinPacker

namespace BinPacker

/-- C5, amended: TryPackArea returns the invalid sentinel only when the
requested width or height is 0, or the requested area exceeds the bin's
current dimensions **in the given orientation** (the initial guard never
considers the rotation, so a request that would fit only after 90° rotation
fails), or no free region admits a fitting clip in either orientation.  The
score-sum bound keeps every candidate's total below the `INT_MAX` sentinel,
matching the C `int` arithmetic the search relies on. -/
theorem C5_amended_failure_conditions :
    ∀ (b : Bin) (a : Area) (res : Rect) (b' : Bin),
      (∀ r ∈ b.GetEmptyRegions, r.IsValid = true) →
      4 * (b.GetEmptyRegions.map rectArea).sum < intMax →
      b.TryPackArea a = (res, b') → res.IsValid = false →
      a.width = 0 ∨ a.height = 0 ∨ b.GetDimensions.width < a.width ∨
        b.GetDimensions.height < a.height ∨
        ∀ r ∈ b.GetEmptyRegions, fits r a = false ∧
          fits r ⟨a.height, a.width⟩ = false := by
  intro b a res b' hv hbound heq hres
  by_cases hg : 0 < a.width ∧ 0 < a.height ∧ a.width ≤ b.dimensions.width ∧
      a.height ≤ b.dimensions.height
  · right; right; right; right
    intro r hrm
    by_contra hcon
    have hex : ∃ rr ∈ b.emptyRegions, fits rr a = true ∨
        fits rr ⟨a.height, a.width⟩ = true := by
      refine ⟨r, hrm, ?_⟩
      cases h1 : fits r a with
      | true => exact Or.inl rfl
      | false =>
        cases h2 : fits r ⟨a.height, a.width⟩ with
        | true => exact Or.inr rfl
        | false => exact absurd ⟨h1, h2⟩ hcon
    have hval := searchBest_found b.emptyRegions a hv hg.1 hg.2.1 hbound hex
    have hsucc : (b.TryPackArea a).1 = (searchBest b.emptyRegions a).2 := by
      simp only [Bin.TryPackArea]
      rw [if_pos hg, if_pos hval]
    rw [heq] at hsucc
    simp only at hsucc
    rw [hsucc] at hres
    rw [hres] at hval
    exact absurd hval Bool.false_ne_true
  · have hd : a.width = 0 ∨ a.height = 0 ∨ b.dimensions.width < a.width ∨
        b.dimensions.height < a.height := by omega
    simp only [Bin.GetDimensions]
    rcases hd with h | h | h | h
    · exact Or.inl h
    · exact Or.inr (Or.inl h)
    · exact Or.inr (Or.inr (Or.inl h))
    · exact Or.inr (Or.inr (Or.inr (Or.inl h)))

/-- Witness for the amended C5 at the 5×1 bin with free region `{0,0,4,0}`
and request `{1,5}`: the region admits the rotated clip, yet the call fails,
and resolving the theorem's disjunction pins the failure on the dimension
check in the given orientation (`height 1 < 5`). -/
theorem C5_amended_witness :
    fits ⟨0, 0, 4, 0⟩ ⟨5, 1⟩ = true ∧ (1 : Nat) < 5 := by
  refine ⟨by decide, ?_⟩
  have h := C5_amended_failure_conditions ⟨⟨5, 1⟩, [⟨0, 0, 4, 0⟩]⟩ ⟨1, 5⟩
    ⟨1, 1, 0, 0⟩ ⟨⟨5, 1⟩, [⟨0, 0, 4, 0⟩]⟩ (by decide) (by decide) (by decide) (by decide)
  rcases h with h | h | h | h | h
  · exact absurd h (by decide)
  · exact absurd h (by decide)
  · exact absurd h (by decide)
  · exact h
  · exfalso
    have h2 := h ⟨0, 0, 4, 0⟩ (by decide)
    exact absurd h2.2 (by decide)

end BinPacker
